import Mathlib

/-!
Shallow embedding of `jack_cat.c` (glenoverby/jack_cat), a program that
captures JACK audio to an interleaved 32-bit-float file and plays such a
file back.  Samples are modelled by their 32-bit pattern (a `Nat < 2^32`),
bytes by `Nat`; the JACK ring buffer is modelled as a capacity-bounded byte
queue; file descriptors are modelled as byte lists with an explicit unread
remainder.  The status record mirrors `struct status` field by field.
-/

namespace JackCat

/-- `sizeof(jack_default_audio_sample_t)`: a 32-bit float takes 4 bytes. -/
def sampleSize : Nat := 4

/-- Native (little-endian) byte serialization of one 32-bit sample pattern,
as `jack_ringbuffer_write(buffer, (char*)&sample, 4)` stores it. -/
def sampleToBytes (s : Nat) : List Nat :=
  [s % 256, s / 256 % 256, s / 65536 % 256, s / 16777216 % 256]

/-- Reassembling a 4-byte little-endian group into the 32-bit pattern, as
`jack_ringbuffer_read(buffer, (char*)dst, 4)` deposits it into a float. -/
def bytesToSample (bs : List Nat) : Nat :=
  bs.getD 0 0 + 256 * bs.getD 1 0 + 65536 * bs.getD 2 0 + 16777216 * bs.getD 3 0

/-- Serialization of a sample list, in order: the byte stream the nested
capture loop produces via successive 4-byte `jack_ringbuffer_write` calls. -/
def samplesBytes : List Nat → List Nat
  | [] => []
  | s :: rest => sampleToBytes s ++ samplesBytes rest

/-- The JACK ring buffer (`jack_ringbuffer_t`), abstracted to its contract:
a byte FIFO with fixed capacity.  `data` holds the unread bytes, oldest
first; the write cursor is `data.length` past the read cursor. -/
structure RingBuffer where
  capacity : Nat
  data : List Nat
deriving DecidableEq

/-- `jack_ringbuffer_write_space`. -/
def jack_ringbuffer_write_space (rb : RingBuffer) : Nat :=
  rb.capacity - rb.data.length

/-- `jack_ringbuffer_read_space`. -/
def jack_ringbuffer_read_space (rb : RingBuffer) : Nat :=
  rb.data.length

/-- `jack_ringbuffer_write`: copies at most the free space, advances the
write cursor by the bytes copied. -/
def jack_ringbuffer_write (rb : RingBuffer) (src : List Nat) : RingBuffer :=
  { rb with data := rb.data ++ src.take (jack_ringbuffer_write_space rb) }

/-- `jack_ringbuffer_read`: removes and returns at most `cnt` bytes. -/
def jack_ringbuffer_read (rb : RingBuffer) (cnt : Nat) : RingBuffer × List Nat :=
  let n := min cnt rb.data.length
  ({ rb with data := rb.data.drop n }, rb.data.take n)

/-- `struct status` of jack_cat.c; `stop` and `eof` are C ints. -/
structure Status where
  jack_calls : Nat
  disk_io : Nat
  disk_bytes : Nat
  overflows : Nat
  underruns : Nat
  stop : Nat
  eof : Nat
deriving DecidableEq

/-- `memset(&status, 0, sizeof(struct status))` in `main`. -/
def initStatus : Status :=
  { jack_calls := 0, disk_io := 0, disk_bytes := 0, overflows := 0
    underruns := 0, stop := 0, eof := 0 }

/-- The sample of channel `i` at frame `f`: `cbd->buf[i][f]`.  Port buffers
are given as a list of per-channel sample lists. -/
def sampleAt (bufs : List (List Nat)) (i f : Nat) : Nat :=
  (bufs.getD i []).getD f 0

/-- One frame of the interleaved stream: the inner capture loop
`for (i=0; i < nports; i++)` at frame index `f`. -/
def frameSamples (nports : Nat) (bufs : List (List Nat)) (f : Nat) : List Nat :=
  (List.range nports).map (fun i => sampleAt bufs i f)

/-- The interleaved sample sequence produced by the nested capture loops
`for (f=0; f < nframes; f++) for (i=0; i < nports; i++)`. -/
def interleavedSamples (nframes nports : Nat) (bufs : List (List Nat)) : List Nat :=
  match nframes with
  | 0 => []
  | k + 1 => interleavedSamples k nports bufs ++ frameSamples nports bufs k

/-- The capture loop body: one `jack_ringbuffer_write` of 4 bytes per
sample, in interleaved order. -/
def writeInterleaved (rb : RingBuffer) (samples : List Nat) : RingBuffer :=
  samples.foldl (fun b s => jack_ringbuffer_write b (sampleToBytes s)) rb

/-- Result of `jack_capture_callback`: the returned int, the status record
and the ring buffer after the call. -/
structure CaptureResult where
  ret : Nat
  st : Status
  rb : RingBuffer
deriving DecidableEq

/-- `jack_capture_callback` (jack_cat.c:277-319).  The mutex/condvar signal
attempt touches neither status nor ring buffer and is elided. -/
def jack_capture_callback (nframes nports : Nat) (bufs : List (List Nat))
    (st : Status) (rb : RingBuffer) : CaptureResult :=
  let st1 := { st with jack_calls := st.jack_calls + 1 }
  let space := jack_ringbuffer_write_space rb
  if space < nframes * sampleSize * nports then
    { ret := 0, st := { st1 with overflows := st1.overflows + 1 }, rb := rb }
  else
    { ret := 0, st := st1
      rb := writeInterleaved rb (interleavedSamples nframes nports bufs) }

/-- The playback loop body: `nframes * nports` successive 4-byte
`jack_ringbuffer_read` calls, each deposited as one sample. -/
def readInterleaved : RingBuffer → Nat → RingBuffer × List Nat
  | rb, 0 => (rb, [])
  | rb, n + 1 =>
    let p := jack_ringbuffer_read rb sampleSize
    let q := readInterleaved p.1 n
    (q.1, bytesToSample p.2 :: q.2)

/-- Distribution of the flat interleaved sample list into per-port output
buffers: the playback loops store the `(f*nports+i)`-th sample read into
`cbd->buf[i][f]`. -/
def deinterleave (nframes nports : Nat) (flat : List Nat) : List (List Nat) :=
  (List.range nports).map (fun i =>
    (List.range nframes).map (fun f => flat.getD (f * nports + i) 0))

/-- Result of `jack_playback_callback`: returned int, status, ring buffer,
the per-port output buffers it filled, and whether `jack_deactivate` was
called. -/
structure PlaybackResult where
  ret : Nat
  st : Status
  rb : RingBuffer
  outs : List (List Nat)
  deact : Bool
deriving DecidableEq

/-- `jack_playback_callback` (jack_cat.c:321-372).  `memset(buf[i],0,...)`
zero-fills a port buffer; the all-zero float pattern is sample `0`. -/
def jack_playback_callback (nframes nports : Nat) (st : Status)
    (rb : RingBuffer) : PlaybackResult :=
  let st1 := { st with jack_calls := st.jack_calls + 1 }
  let space := jack_ringbuffer_read_space rb
  if space < nframes * sampleSize * nports then
    let st2 := { st1 with underruns := st1.underruns + 1 }
    let outs := List.replicate nports (List.replicate nframes 0)
    if st2.eof ≠ 0 then
      { ret := 0, st := { st2 with stop := 1 }, rb := rb, outs := outs, deact := true }
    else
      { ret := 0, st := st2, rb := rb, outs := outs, deact := false }
  else
    let p := readInterleaved rb (nframes * nports)
    { ret := 0, st := st1, rb := p.1
      outs := deinterleave nframes nports p.2, deact := false }

/-- `FILE_HEADER_LEN`: the header length `disk_read` consumes. -/
def FILE_HEADER_LEN : Nat := 6

/-- ASCII decimal rendering of `n` as `sprintf("%1d", n)` produces it
(most significant digit first, minimum width 1; jack_cat uses it for port
counts up to 32, hence at most two digits matter). -/
def decimalASCII (n : Nat) : List Nat :=
  if n < 10 then [48 + n]
  else if n < 100 then [48 + n / 10, 48 + n % 10]
  else [48 + n / 100, 48 + n / 10 % 10, 48 + n % 10]

/-- The bytes `disk_write` emits before any frame data:
`n = sprintf(label, "JACK%1d", c->ports); write(fd, label, n+1);`
i.e. the ASCII tag `JACK`, the decimal rendering of the port count, and
the string terminator byte. -/
def headerBytes (ports : Nat) : List Nat :=
  [74, 65, 67, 75] ++ decimalASCII ports ++ [0]

/-- State of the disk-writer thread: the ring buffer it consumes, the byte
contents of the output file, the status record, and the count of short
writes reported on stderr. -/
structure WriterState where
  rb : RingBuffer
  file : List Nat
  st : Status
  warned : Nat
deriving DecidableEq

/-- One pass of the `disk_write` loop body taken when
`jack_ringbuffer_read_space(buffer) > 0` (jack_cat.c:497-511).
`wActual l` is the return value of the `write(fd, vec[0].buf, l)` system
call (at most `l`; a smaller value is a short write).  The code warns on a
short write but advances the read cursor by `l`, the requested length. -/
def disk_write_iter (blocksize : Nat) (wActual : Nat → Nat)
    (s : WriterState) : WriterState :=
  let l := min s.rb.data.length blocksize
  let w := wActual l
  { rb := { s.rb with data := s.rb.data.drop l }
    file := s.file ++ (s.rb.data.take l).take w
    st := { s.st with disk_io := s.st.disk_io + 1
                      disk_bytes := s.st.disk_bytes + l }
    warned := if w = l then s.warned else s.warned + 1 }

/-- The `disk_write` loop (`while (status.stop == 0)`), fuelled.  When the
ring buffer is empty the thread would block in `pthread_cond_wait`; with no
producer running we stop there and return the state at the wait. -/
def disk_write_run (blocksize : Nat) (wActual : Nat → Nat) :
    Nat → WriterState → WriterState
  | 0, s => s
  | fuel + 1, s =>
    if s.st.stop ≠ 0 then s
    else if 0 < s.rb.data.length then
      disk_write_run blocksize wActual fuel (disk_write_iter blocksize wActual s)
    else s

/-- `disk_write` (jack_cat.c:471-520): writes the header once, before any
frame data, then drains the ring buffer to the file. -/
def disk_write (ports blocksize : Nat) (wActual : Nat → Nat) (fuel : Nat)
    (rb : RingBuffer) (st : Status) : WriterState :=
  disk_write_run blocksize wActual fuel
    { rb := rb, file := headerBytes ports, st := st, warned := 0 }

/-- State of the disk-reader thread: the ring buffer it fills, the unread
remainder of the input file (the file position is implicit), and the
status record. -/
structure ReaderState where
  rb : RingBuffer
  fileRest : List Nat
  st : Status
deriving DecidableEq

/-- One pass of the `disk_read` loop body taken when
`jack_ringbuffer_write_space(buffer) > 0` (jack_cat.c:558-578).  `read`
returns the next `min l remaining` bytes of the file.  Returns the new
state and whether the loop `break`s (end of file).  On a full read the
write cursor advances by `l`; on `r == 0` the eof flag is set and the loop
exits; on a partial read `0 < r < l` nothing is committed (the bytes read
are consumed from the file but never advance the write cursor). -/
def disk_read_iter (blocksize : Nat) (s : ReaderState) : ReaderState × Bool :=
  let l := min (jack_ringbuffer_write_space s.rb) blocksize
  let chunk := s.fileRest.take l
  let r := chunk.length
  let st1 := { s.st with disk_io := s.st.disk_io + 1
                         disk_bytes := s.st.disk_bytes + l }
  if r ≠ l then
    if r = 0 then
      ({ s with st := { st1 with eof := 1 }, fileRest := s.fileRest.drop l }, true)
    else
      ({ s with st := st1, fileRest := s.fileRest.drop l }, false)
  else
    ({ rb := { s.rb with data := s.rb.data ++ chunk }
       fileRest := s.fileRest.drop l, st := st1 }, false)

/-- The `disk_read` loop (`while (status.stop == 0)`), fuelled; stops at
the `pthread_cond_wait` when the ring buffer has no free space. -/
def disk_read_run (blocksize : Nat) : Nat → ReaderState → ReaderState
  | 0, s => s
  | fuel + 1, s =>
    if s.st.stop ≠ 0 then s
    else if 0 < jack_ringbuffer_write_space s.rb then
      let p := disk_read_iter blocksize s
      if p.2 then p.1 else disk_read_run blocksize fuel p.1
    else s

/-- `disk_read` (jack_cat.c:528-587): reads the 6-byte header exactly once
before any frame data; fewer than `FILE_HEADER_LEN` bytes is fatal
(`status.stop = 1`, return before the loop). -/
def disk_read (blocksize fuel : Nat) (file : List Nat) (rb : RingBuffer)
    (st : Status) : ReaderState :=
  if (file.take FILE_HEADER_LEN).length < FILE_HEADER_LEN then
    { rb := rb, fileRest := file.drop FILE_HEADER_LEN
      st := { st with stop := 1 } }
  else
    disk_read_run blocksize fuel
      { rb := rb, fileRest := file.drop FILE_HEADER_LEN, st := st }

/-- `units` (jack_cat.c:177-189). -/
def units (u : Char) : Int :=
  if u = 'k' then 1024
  else if u = 'm' then 1048576
  else if u = 'g' then 1073741824
  else -1

/-- The configuration fields `parse_args` fills, plus a count of warning
messages printed to stderr. -/
structure ParseConfig where
  filename : Option String
  io : Nat
  ports : Int
  blocksize : Int
  rbsize : Int
  warnings : Nat
deriving DecidableEq

/-- `config.rbsize = 1048576; config.blocksize = 1048576;` over zeroed
memory, as set up in `main` before `parse_args`. -/
def initConfig : ParseConfig :=
  { filename := none, io := 0, ports := 0
    blocksize := 1048576, rbsize := 1048576, warnings := 0 }

/-- One getopt result: an option with its already-scanned argument.  For
`-b`/`-B`, `sscanf(optarg, "%i%c", &value, &u)` yields the numeric value
and, when a character follows the number, that character. -/
inductive CmdOpt where
  | optb (v : Int) (suffix : Option Char)
  | optB (v : Int) (suffix : Option Char)
  | optc (fname : String)
  | optp (fname : String)
  | optn (v : Int)
deriving DecidableEq

/-- One arm of the `switch(opt)` in `parse_args` (jack_cat.c:199-248).
For `-b`/`-B` with a unit suffix, an invalid suffix prints
`"-b units was invalid"` / `"-B units was invalid"` and `break`s out of
the switch: the scanned value is kept unmultiplied and parsing continues. -/
def applyOpt (c : ParseConfig) (o : CmdOpt) : ParseConfig :=
  match o with
  | .optb v suffix =>
    match suffix with
    | none => { c with blocksize := v }
    | some u =>
      if units u = -1 then
        { c with blocksize := v, warnings := c.warnings + 1 }
      else { c with blocksize := v * units u }
  | .optB v suffix =>
    match suffix with
    | none => { c with rbsize := v }
    | some u =>
      if units u = -1 then
        { c with rbsize := v, warnings := c.warnings + 1 }
      else { c with rbsize := v * units u }
  | .optc f => { c with filename := some f, io := 1 }
  | .optp f => { c with filename := some f, io := 2 }
  | .optn v => { c with ports := v }

/-- `parse_args` (jack_cat.c:191-270): the getopt loop followed by the
required-argument checks.  `npos` is the number of trailing positional
port-name arguments (`argc - optind`).  Returns the filled configuration
and the function's int return value (0 on success). -/
def parse_args (opts : List CmdOpt) (npos : Nat) : ParseConfig × Int :=
  let c1 := opts.foldl applyOpt initConfig
  let c2 := if 0 < npos then { c1 with ports := (npos : Int) } else c1
  if npos = 0 ∧ c1.ports = 0 then (c1, 1)
  else if c2.io = 0 then (c2, 1)
  else if c2.filename = none then (c2, 1)
  else (c2, 0)

/-- `main` exits with status 1 before starting any thread exactly when
`parse_args` returns nonzero (jack_cat.c:135-136). -/
def main_exits_before_threads (opts : List CmdOpt) (npos : Nat) : Bool :=
  (parse_args opts npos).2 ≠ 0

/-- `signal_handler` (jack_cat.c:634-648): sets the stop flag, then
attempts a non-blocking `pthread_mutex_trylock`; on success it signals the
condition variable and unlocks.  `mutexFree` says whether the trylock
succeeds; the returned Bool is whether the condition variable was
signalled.  No field other than `stop` is touched and no blocking
operation is performed. -/
def signal_handler (mutexFree : Bool) (st : Status) : Status × Bool :=
  ({ st with stop := 1 }, mutexFree)

/-! ### Serialization lemmas -/

lemma sampleToBytes_length (s : Nat) : (sampleToBytes s).length = 4 := rfl

lemma bytesToSample_sampleToBytes (s : Nat) (h : s < 4294967296) :
    bytesToSample (sampleToBytes s) = s := by
  simp [bytesToSample, sampleToBytes]
  omega

lemma samplesBytes_length (l : List Nat) :
    (samplesBytes l).length = 4 * l.length := by
  induction l with
  | nil => rfl
  | cons s rest ih =>
    rw [samplesBytes, List.length_append, sampleToBytes_length, ih,
      List.length_cons]
    ring

lemma samplesBytes_append (l₁ l₂ : List Nat) :
    samplesBytes (l₁ ++ l₂) = samplesBytes l₁ ++ samplesBytes l₂ := by
  induction l₁ with
  | nil => rfl
  | cons s rest ih => simp [samplesBytes, ih]

/-! ### Interleaving lemmas -/

lemma frameSamples_length (nports : Nat) (bufs : List (List Nat)) (f : Nat) :
    (frameSamples nports bufs f).length = nports := by
  simp [frameSamples]

lemma interleavedSamples_length (nframes nports : Nat) (bufs : List (List Nat)) :
    (interleavedSamples nframes nports bufs).length = nframes * nports := by
  induction nframes with
  | zero => simp [interleavedSamples]
  | succ k ih =>
    rw [interleavedSamples, List.length_append, ih, frameSamples_length]
    ring

lemma frameSamples_getD (nports : Nat) (bufs : List (List Nat)) (f i : Nat)
    (hi : i < nports) :
    (frameSamples nports bufs f).getD i 0 = sampleAt bufs i f := by
  rw [List.getD_eq_getElem _ _ (by simp [frameSamples_length]; exact hi)]
  simp [frameSamples]

lemma interleavedSamples_getD (nframes nports : Nat) (bufs : List (List Nat))
    (f i : Nat) (hf : f < nframes) (hi : i < nports) :
    (interleavedSamples nframes nports bufs).getD (f * nports + i) 0
      = sampleAt bufs i f := by
  induction nframes with
  | zero => omega
  | succ k ih =>
    rw [interleavedSamples]
    rcases Nat.lt_or_ge f k with hfk | hfk
    · rw [List.getD_append]
      · exact ih hfk
      · rw [interleavedSamples_length]
        calc f * nports + i < f * nports + nports := by omega
        _ = (f + 1) * nports := by ring
        _ ≤ k * nports := Nat.mul_le_mul_right _ (by omega)
    · have hfe : f = k := by omega
      subst hfe
      rw [List.getD_append_right]
      · rw [interleavedSamples_length, Nat.add_sub_cancel_left]
        exact frameSamples_getD _ _ _ _ hi
      · rw [interleavedSamples_length]
        omega

lemma deinterleave_getD (nframes nports : Nat) (flat : List Nat) (i f : Nat)
    (hi : i < nports) (hf : f < nframes) :
    ((deinterleave nframes nports flat).getD i []).getD f 0
      = flat.getD (f * nports + i) 0 := by
  have h1 : i < (deinterleave nframes nports flat).length := by
    simp [deinterleave]; exact hi
  rw [List.getD_eq_getElem _ _ h1]
  simp only [deinterleave, List.getElem_map, List.getElem_range]
  have h2 : f < ((List.range nframes).map
      (fun f => flat.getD (f * nports + i) 0)).length := by
    simp; exact hf
  rw [List.getD_eq_getElem _ _ h2]
  simp only [List.getElem_map, List.getElem_range]

lemma sampleAt_lt (bufs : List (List Nat)) (B : Nat) (hB : 0 < B)
    (hs : ∀ ch ∈ bufs, ∀ s ∈ ch, s < B) (i f : Nat) :
    sampleAt bufs i f < B := by
  unfold sampleAt
  rcases Nat.lt_or_ge i bufs.length with hi | hi
  · rcases Nat.lt_or_ge f (bufs[i].length) with hfl | hfl
    · rw [List.getD_eq_getElem _ _ hi, List.getD_eq_getElem _ _ hfl]
      exact hs _ (List.getElem_mem hi) _ (List.getElem_mem hfl)
    · rw [List.getD_eq_getElem _ _ hi, List.getD_eq_default _ _ hfl]
      exact hB
  · rw [List.getD_eq_default _ _ hi]
    simp [List.getD]
    exact hB

lemma interleavedSamples_lt (nframes nports : Nat) (bufs : List (List Nat))
    (B : Nat) (hB : 0 < B) (hs : ∀ ch ∈ bufs, ∀ s ∈ ch, s < B) :
    ∀ x ∈ interleavedSamples nframes nports bufs, x < B := by
  induction nframes with
  | zero => intro x hx; simp [interleavedSamples] at hx
  | succ k ih =>
    intro x hx
    rw [interleavedSamples, List.mem_append] at hx
    rcases hx with hx | hx
    · exact ih x hx
    · rcases List.mem_map.mp hx with ⟨i, _, rfl⟩
      exact sampleAt_lt bufs B hB hs i k

lemma deinterleave_interleave (K N : Nat) (bufs : List (List Nat))
    (hlen : bufs.length = N) (hK : ∀ ch ∈ bufs, ch.length = K) :
    deinterleave K N (interleavedSamples K N bufs) = bufs := by
  apply List.ext_getElem
  · simp [deinterleave, hlen]
  · intro i h1 h2
    simp only [deinterleave, List.getElem_map, List.getElem_range]
    apply List.ext_getElem
    · simp only [List.length_map, List.length_range]
      exact (hK _ (List.getElem_mem h2)).symm
    · intro f hf1 hf2
      simp only [List.getElem_map, List.getElem_range]
      have hiN : i < N := by simpa [deinterleave] using h1
      have hfK : f < K := by simpa using hf1
      rw [interleavedSamples_getD K N bufs f i hfK hiN]
      rw [sampleAt, List.getD_eq_getElem _ _ h2,
        List.getD_eq_getElem _ _ hf2]

/-! ### Ring-buffer transfer lemmas -/

lemma jack_ringbuffer_write_full (rb : RingBuffer) (src : List Nat)
    (h : src.length ≤ jack_ringbuffer_write_space rb) :
    jack_ringbuffer_write rb src
      = { capacity := rb.capacity, data := rb.data ++ src } := by
  simp [jack_ringbuffer_write, List.take_of_length_le h]

lemma writeInterleaved_append (samples : List Nat) (rb : RingBuffer)
    (h : 4 * samples.length ≤ jack_ringbuffer_write_space rb) :
    writeInterleaved rb samples
      = { capacity := rb.capacity, data := rb.data ++ samplesBytes samples } := by
  induction samples generalizing rb with
  | nil => simp [writeInterleaved, samplesBytes]
  | cons s rest ih =>
    have hspace : jack_ringbuffer_write_space rb =
        rb.capacity - rb.data.length := rfl
    have h4 : (sampleToBytes s).length ≤ jack_ringbuffer_write_space rb := by
      rw [sampleToBytes_length]
      simp [List.length_cons] at h
      omega
    have hw := jack_ringbuffer_write_full rb (sampleToBytes s) h4
    rw [writeInterleaved, List.foldl_cons, hw]
    have h' : 4 * rest.length ≤ jack_ringbuffer_write_space
        { capacity := rb.capacity, data := rb.data ++ sampleToBytes s } := by
      simp [jack_ringbuffer_write_space, List.length_append,
        sampleToBytes_length] at h ⊢
      omega
    have := ih { capacity := rb.capacity, data := rb.data ++ sampleToBytes s } h'
    rw [writeInterleaved] at this
    rw [this, samplesBytes, List.append_assoc]

lemma readInterleaved_exact (samples rest : List Nat) (cap : Nat)
    (hs : ∀ s ∈ samples, s < 4294967296) :
    readInterleaved { capacity := cap, data := samplesBytes samples ++ rest }
      samples.length = ({ capacity := cap, data := rest }, samples) := by
  induction samples with
  | nil => simp [readInterleaved, samplesBytes]
  | cons s tail ih =>
    rw [List.length_cons, readInterleaved]
    have hlen : (samplesBytes (s :: tail) ++ rest).length
        = 4 + (samplesBytes tail ++ rest).length := by
      simp [samplesBytes, List.length_append, sampleToBytes_length]
    have hread : jack_ringbuffer_read
        { capacity := cap, data := samplesBytes (s :: tail) ++ rest } sampleSize
        = ({ capacity := cap, data := samplesBytes tail ++ rest },
           sampleToBytes s) := by
      rw [jack_ringbuffer_read]
      have hmin : min sampleSize (samplesBytes (s :: tail) ++ rest).length
          = 4 := by
        rw [hlen]; simp [sampleSize]
      simp only [hmin]
      constructor
    rw [hread]
    have htail := ih (fun x hx => hs x (List.mem_cons_of_mem s hx))
    simp only [htail]
    rw [bytesToSample_sampleToBytes s (hs s (List.mem_cons_self s tail))]

lemma readInterleaved_getD (n : Nat) (rb : RingBuffer)
    (h : 4 * n ≤ rb.data.length) :
    (readInterleaved rb n).1
        = { capacity := rb.capacity, data := rb.data.drop (4 * n) } ∧
    ∀ j, j < n → (readInterleaved rb n).2.getD j 0
        = bytesToSample ((rb.data.drop (4 * j)).take 4) := by
  induction n generalizing rb with
  | zero =>
    refine ⟨by simp [readInterleaved], ?_⟩
    intro j hj; omega
  | succ m ih =>
    have hmin : min sampleSize rb.data.length = 4 := by
      simp [sampleSize]; omega
    have hread : jack_ringbuffer_read rb sampleSize
        = ({ capacity := rb.capacity, data := rb.data.drop 4 },
           rb.data.take 4) := by
      rw [jack_ringbuffer_read]
      simp only [hmin]
    have hlen : 4 * m ≤ (rb.data.drop 4).length := by
      simp [List.length_drop]; omega
    have hrec := ih { capacity := rb.capacity, data := rb.data.drop 4 } hlen
    rw [readInterleaved]
    simp only [hread, hrec.1]
    constructor
    · rw [List.drop_drop]
      congr 1
      congr 1
      omega
    · intro j hj
      match j with
      | 0 => simp
      | jj + 1 =>
        rw [List.getD_cons_succ]
        rw [hrec.2 jj (by omega)]
        rw [List.drop_drop]
        have h4 : 4 + 4 * jj = 4 * (jj + 1) := by omega
        rw [h4]

/-! ### Disk thread lemmas -/

lemma headerBytes_single_digit (n : Nat) (h : n < 10) :
    headerBytes n = [74, 65, 67, 75, 48 + n, 0] := by
  simp [headerBytes, decimalASCII, if_pos h]

lemma headerBytes_length_single (n : Nat) (h : n < 10) :
    (headerBytes n).length = 6 := by
  rw [headerBytes_single_digit n h]
  rfl

/-- With full writes and a block size at least the buffered byte count, two
fuel steps of the `disk_write` loop drain the ring buffer entirely into the
file and park the thread at the condition wait. -/
lemma disk_write_run_drain (bs : Nat) (s : WriterState)
    (hstop : s.st.stop = 0) (hlen : s.rb.data.length ≤ bs) :
    disk_write_run bs (fun l => l) 2 s
      = if 0 < s.rb.data.length then
          { rb := { s.rb with data := [] }
            file := s.file ++ s.rb.data
            st := { s.st with disk_io := s.st.disk_io + 1
                              disk_bytes := s.st.disk_bytes + s.rb.data.length }
            warned := s.warned }
        else s := by
  rcases Nat.eq_zero_or_pos s.rb.data.length with hz | hp
  · rw [disk_write_run]
    simp [hstop, hz]
  · have hminl : min s.rb.data.length bs = s.rb.data.length :=
      Nat.min_eq_left hlen
    have hiter : disk_write_iter bs (fun l => l) s
        = { rb := { s.rb with data := [] }
            file := s.file ++ s.rb.data
            st := { s.st with disk_io := s.st.disk_io + 1
                              disk_bytes := s.st.disk_bytes + s.rb.data.length }
            warned := s.warned } := by
      rw [disk_write_iter]
      simp only [hminl]
      simp [List.drop_length, List.take_length, List.take_of_length_le]
    rw [disk_write_run]
    rw [if_neg (by simp [hstop]), if_pos hp, hiter]
    rw [disk_write_run]
    simp [hstop, hp]

/-- With stop clear, capacity equal to the body length and block size at
least the body length, two fuel steps of the `disk_read` loop move the
whole remaining file into the ring buffer and park at the condition wait;
status fields other than the disk counters are untouched. -/
lemma disk_read_run_fill (bs : Nat) (body : List Nat) (st : Status)
    (hstop : st.stop = 0) (hbs : body.length ≤ bs) :
    disk_read_run bs 2
        { rb := { capacity := body.length, data := [] }
          fileRest := body, st := st }
      = if 0 < body.length then
          { rb := { capacity := body.length, data := body }
            fileRest := []
            st := { st with disk_io := st.disk_io + 1
                            disk_bytes := st.disk_bytes + body.length } }
        else
          { rb := { capacity := body.length, data := [] }
            fileRest := body, st := st } := by
  rcases Nat.eq_zero_or_pos body.length with hz | hp
  · rw [disk_read_run]
    simp [hstop, jack_ringbuffer_write_space, hz]
  · have hspace : jack_ringbuffer_write_space
        { capacity := body.length, data := ([] : List Nat) }
        = body.length := by
      simp [jack_ringbuffer_write_space]
    have hminl : min body.length bs = body.length := Nat.min_eq_left hbs
    have hiter : disk_read_iter bs
        { rb := { capacity := body.length, data := [] }
          fileRest := body, st := st }
        = ({ rb := { capacity := body.length, data := body }
             fileRest := []
             st := { st with disk_io := st.disk_io + 1
                             disk_bytes := st.disk_bytes + body.length } },
           false) := by
      rw [disk_read_iter]
      simp only [hspace, hminl]
      simp [List.take_length, List.drop_length]
    rw [disk_read_run]
    rw [if_neg (by simp [hstop])]
    rw [if_pos (by rw [hspace]; exact hp)]
    simp only [hiter]
    rw [disk_read_run]
    simp [hstop, hp, jack_ringbuffer_write_space]

/-! ### Claim theorems -/

/-- Claim C2: samples are transferred frame-interleaved.  The capture
writer places the sample of channel `i` at frame `f` at flat position
`f*N+i` (outer loop frames, inner loop channels); the playback reader
fills channel `i`, frame `f` from the identical flat position; and every
sample of frame `f` precedes every sample of any later frame `f'`. -/
theorem C2_interleaving (F N : Nat) (bufs : List (List Nat)) (flat : List Nat)
    (f i f' i' : Nat) (hf : f < F) (hi : i < N) (_hi' : i' < N) (hff' : f < f') :
    (interleavedSamples F N bufs).getD (f * N + i) 0 = sampleAt bufs i f
    ∧ ((deinterleave F N flat).getD i []).getD f 0 = flat.getD (f * N + i) 0
    ∧ f * N + i < f' * N + i' := by
  refine ⟨interleavedSamples_getD F N bufs f i hf hi,
    deinterleave_getD F N flat i f hi hf, ?_⟩
  calc f * N + i < f * N + N := by omega
  _ = (f + 1) * N := by ring
  _ ≤ f' * N := Nat.mul_le_mul_right _ (by omega)
  _ ≤ f' * N + i' := Nat.le_add_right _ _

/-- Witness for C2 at `F = 2`, `N = 2`, frame 0 channel 1 versus frame 1
channel 0. -/
theorem C2_interleaving_witness :
    (interleavedSamples 2 2 [[1, 2], [3, 4]]).getD (0 * 2 + 1) 0
        = sampleAt [[1, 2], [3, 4]] 1 0
    ∧ ((deinterleave 2 2 [10, 11, 12, 13]).getD 1 []).getD 0 0
        = [10, 11, 12, 13].getD (0 * 2 + 1) 0
    ∧ 0 * 2 + 1 < 1 * 2 + 0 :=
  C2_interleaving 2 2 [[1, 2], [3, 4]] [10, 11, 12, 13] 0 1 1 0
    (by decide) (by decide) (by decide) (by decide)

/-- Claim C3: with writable space exactly `F*4*N` bytes the capture
callback writes all `F*N` samples, does not bump the overflow counter and
returns 0; with one byte less it bumps the overflow counter by one, leaves
the ring buffer untouched and still returns 0. -/
theorem C3_capture_boundary (F N : Nat) (bufs : List (List Nat))
    (st : Status) (rb : RingBuffer) (hF : 1 ≤ F) (hN : 1 ≤ N) :
    (jack_ringbuffer_write_space rb = F * sampleSize * N →
        (jack_capture_callback F N bufs st rb).ret = 0
      ∧ (jack_capture_callback F N bufs st rb).st.overflows = st.overflows
      ∧ (jack_capture_callback F N bufs st rb).rb.data
          = rb.data ++ samplesBytes (interleavedSamples F N bufs))
    ∧ (jack_ringbuffer_write_space rb = F * sampleSize * N - 1 →
        (jack_capture_callback F N bufs st rb).ret = 0
      ∧ (jack_capture_callback F N bufs st rb).st.overflows = st.overflows + 1
      ∧ (jack_capture_callback F N bufs st rb).rb = rb) := by
  constructor
  · intro h
    have hnot : ¬ jack_ringbuffer_write_space rb < F * sampleSize * N := by
      rw [h]
      exact Nat.lt_irrefl _
    have hfit : 4 * (interleavedSamples F N bufs).length
        ≤ jack_ringbuffer_write_space rb := by
      rw [interleavedSamples_length, h, sampleSize]
      have : F * 4 * N = 4 * (F * N) := by ring
      omega
    simp only [jack_capture_callback, if_neg hnot]
    refine ⟨by simp, by simp, ?_⟩
    rw [writeInterleaved_append _ _ hfit]
  · intro h
    have hpos : 0 < F * sampleSize * N :=
      Nat.mul_pos (Nat.mul_pos hF (by decide)) hN
    have hlt : jack_ringbuffer_write_space rb < F * sampleSize * N := by
      omega
    simp only [jack_capture_callback, if_pos hlt]
    simp

/-- Witness for C3 at `F = 1`, `N = 1`: a 4-byte ring buffer takes the
one sample without overflow; a 3-byte one overflows and stays untouched. -/
theorem C3_capture_boundary_witness :
    (jack_capture_callback 1 1 [[7]] initStatus ⟨4, []⟩).st.overflows = 0
    ∧ (jack_capture_callback 1 1 [[7]] initStatus ⟨4, []⟩).rb.data
        = [7, 0, 0, 0]
    ∧ (jack_capture_callback 1 1 [[7]] initStatus ⟨3, []⟩).st.overflows = 1
    ∧ (jack_capture_callback 1 1 [[7]] initStatus ⟨3, []⟩).rb
        = ⟨3, []⟩ := by
  have h4 := C3_capture_boundary 1 1 [[7]] initStatus ⟨4, []⟩
    (by decide) (by decide)
  have h3 := C3_capture_boundary 1 1 [[7]] initStatus ⟨3, []⟩
    (by decide) (by decide)
  have ha := h4.1 (by decide)
  have hb := h3.2 (by decide)
  refine ⟨ha.2.1, ?_, hb.2.1, hb.2.2⟩
  rw [ha.2.2]
  decide

/-- Claim C4: with readable bytes exactly `F*4*N` the playback callback
fills every port's output buffer with the ring buffer's own bytes (channel
`i`, frame `f` receives the 4-byte group at offset `4*(f*N+i)`) and leaves
the underrun counter alone; with one byte less it bumps the underrun
counter, zero-fills every port buffer, leaves the ring buffer untouched,
and sets the stop flag and calls `jack_deactivate` exactly when the eof
flag was already set. -/
theorem C4_playback_boundary (F N : Nat) (st : Status) (rb : RingBuffer)
    (hF : 1 ≤ F) (hN : 1 ≤ N) :
    (jack_ringbuffer_read_space rb = F * sampleSize * N →
        (jack_playback_callback F N st rb).st.underruns = st.underruns
      ∧ (jack_playback_callback F N st rb).rb.data
          = rb.data.drop (F * sampleSize * N)
      ∧ (jack_playback_callback F N st rb).deact = false
      ∧ ∀ i f, i < N → f < F →
          (((jack_playback_callback F N st rb).outs.getD i []).getD f 0
            = bytesToSample ((rb.data.drop (4 * (f * N + i))).take 4)))
    ∧ (jack_ringbuffer_read_space rb = F * sampleSize * N - 1 →
        (jack_playback_callback F N st rb).st.underruns = st.underruns + 1
      ∧ (jack_playback_callback F N st rb).outs
          = List.replicate N (List.replicate F 0)
      ∧ (jack_playback_callback F N st rb).rb = rb
      ∧ (jack_playback_callback F N st rb).ret = 0
      ∧ (st.eof ≠ 0 → (jack_playback_callback F N st rb).st.stop = 1
            ∧ (jack_playback_callback F N st rb).deact = true)
      ∧ (st.eof = 0 → (jack_playback_callback F N st rb).st.stop = st.stop
            ∧ (jack_playback_callback F N st rb).deact = false)) := by
  constructor
  · intro h
    have hnot : ¬ jack_ringbuffer_read_space rb < F * sampleSize * N := by
      rw [h]
      exact Nat.lt_irrefl _
    have hfit : 4 * (F * N) ≤ rb.data.length := by
      rw [jack_ringbuffer_read_space, sampleSize] at h
      have : F * 4 * N = 4 * (F * N) := by ring
      omega
    have hr := readInterleaved_getD (F * N) rb hfit
    simp only [jack_playback_callback, if_neg hnot]
    refine ⟨by simp, ?_, by simp, ?_⟩
    · rw [hr.1]
      show rb.data.drop (4 * (F * N)) = rb.data.drop (F * sampleSize * N)
      congr 1
      rw [sampleSize]
      ring
    · intro i f hi hf
      rw [deinterleave_getD F N _ i f hi hf]
      exact hr.2 (f * N + i) (by
        calc f * N + i < f * N + N := by omega
        _ = (f + 1) * N := by ring
        _ ≤ F * N := Nat.mul_le_mul_right _ (by omega))
  · intro h
    have hpos : 0 < F * sampleSize * N :=
      Nat.mul_pos (Nat.mul_pos hF (by decide)) hN
    have hlt : jack_ringbuffer_read_space rb < F * sampleSize * N := by
      omega
    rcases Nat.eq_zero_or_pos st.eof with hz | hp
    · simp only [jack_playback_callback, if_pos hlt]
      rw [if_neg (by simp [hz])]
      simp [hz]
    · simp only [jack_playback_callback, if_pos hlt]
      rw [if_pos (by omega)]
      simp
      omega

/-- Witness for C4 at `F = 1`, `N = 1`: 4 readable bytes play as data; 3
readable bytes underrun, zero-fill, and with eof already set also stop. -/
theorem C4_playback_boundary_witness :
    (jack_playback_callback 1 1 initStatus ⟨8, [9, 0, 0, 0]⟩).st.underruns = 0
    ∧ ((jack_playback_callback 1 1 initStatus
          ⟨8, [9, 0, 0, 0]⟩).outs.getD 0 []).getD 0 0 = 9
    ∧ (jack_playback_callback 1 1 initStatus ⟨8, [0, 0, 0]⟩).st.underruns = 1
    ∧ (jack_playback_callback 1 1 initStatus ⟨8, [0, 0, 0]⟩).outs = [[0]]
    ∧ (jack_playback_callback 1 1 { initStatus with eof := 1 }
          ⟨8, [0, 0, 0]⟩).st.stop = 1
    ∧ (jack_playback_callback 1 1 { initStatus with eof := 1 }
          ⟨8, [0, 0, 0]⟩).deact = true := by
  have hgood := C4_playback_boundary 1 1 initStatus ⟨8, [9, 0, 0, 0]⟩
    (by decide) (by decide)
  have hbad := C4_playback_boundary 1 1 initStatus ⟨8, [0, 0, 0]⟩
    (by decide) (by decide)
  have heof := C4_playback_boundary 1 1 { initStatus with eof := 1 }
    ⟨8, [0, 0, 0]⟩ (by decide) (by decide)
  have ha := hgood.1 (by decide)
  have hb := hbad.2 (by decide)
  have hc := heof.2 (by decide)
  refine ⟨ha.1, ?_, hb.1, by rw [hb.2.1]; decide, (hc.2.2.2.2.1 (by decide)).1,
    (hc.2.2.2.2.1 (by decide)).2⟩
  rw [ha.2.2.2 0 0 (by decide) (by decide)]
  decide

/-- Claim C9: a second termination signal after a first is idempotent: the
handler is the same function, it only sets the stop flag, every counter
and the eof flag keep their values, and the only synchronization step is
the non-blocking trylock whose outcome does not affect the status. -/
theorem C9_signal_idempotent (b1 b2 : Bool) (st : Status) :
    (signal_handler b2 (signal_handler b1 st).1).1 = (signal_handler b1 st).1
    ∧ (signal_handler b1 st).1.jack_calls = st.jack_calls
    ∧ (signal_handler b1 st).1.disk_io = st.disk_io
    ∧ (signal_handler b1 st).1.disk_bytes = st.disk_bytes
    ∧ (signal_handler b1 st).1.overflows = st.overflows
    ∧ (signal_handler b1 st).1.underruns = st.underruns
    ∧ (signal_handler b1 st).1.eof = st.eof
    ∧ (signal_handler b1 st).1.stop = 1 :=
  ⟨rfl, rfl, rfl, rfl, rfl, rfl, rfl, rfl⟩

/-- Claim C10: each callback is all-or-nothing on the ring buffer: capture
either appends exactly `F*N` samples (4 bytes each) without touching the
overflow counter, or on overflow leaves the buffer untouched; playback
either consumes exactly `F*N*4` bytes without touching the underrun
counter, or on underrun leaves the buffer (and any partial data in it)
untouched. -/
theorem C10_all_or_nothing (F N : Nat) (bufs : List (List Nat))
    (st : Status) (rb : RingBuffer) :
    (((jack_capture_callback F N bufs st rb).rb.data.length
          = rb.data.length + F * N * 4
        ∧ (jack_capture_callback F N bufs st rb).st.overflows = st.overflows)
      ∨ ((jack_capture_callback F N bufs st rb).rb = rb
        ∧ (jack_capture_callback F N bufs st rb).st.overflows
            = st.overflows + 1))
    ∧ (((jack_playback_callback F N st rb).rb.data
          = rb.data.drop (F * N * 4)
        ∧ F * N * 4 ≤ rb.data.length
        ∧ (jack_playback_callback F N st rb).st.underruns = st.underruns)
      ∨ ((jack_playback_callback F N st rb).rb = rb
        ∧ (jack_playback_callback F N st rb).st.underruns
            = st.underruns + 1)) := by
  constructor
  · by_cases hlt : jack_ringbuffer_write_space rb < F * sampleSize * N
    · right
      simp only [jack_capture_callback, if_pos hlt]
      simp
    · left
      have hfit : 4 * (interleavedSamples F N bufs).length
          ≤ jack_ringbuffer_write_space rb := by
        rw [interleavedSamples_length]
        rw [sampleSize] at hlt
        have : F * 4 * N = 4 * (F * N) := by ring
        omega
      simp only [jack_capture_callback, if_neg hlt]
      rw [writeInterleaved_append _ _ hfit]
      refine ⟨?_, by simp⟩
      simp only [List.length_append, samplesBytes_length,
        interleavedSamples_length]
      have : 4 * (F * N) = F * N * 4 := by ring
      omega
  · by_cases hlt : jack_ringbuffer_read_space rb < F * sampleSize * N
    · right
      rcases Nat.eq_zero_or_pos st.eof with hz | hp
      · simp only [jack_playback_callback, if_pos hlt]
        rw [if_neg (by simp [hz])]
        simp
      · simp only [jack_playback_callback, if_pos hlt]
        rw [if_pos (by omega)]
        simp
    · left
      have hfit : 4 * (F * N) ≤ rb.data.length := by
        rw [jack_ringbuffer_read_space, sampleSize] at hlt
        have : F * 4 * N = 4 * (F * N) := by ring
        omega
      have hr := readInterleaved_getD (F * N) rb hfit
      simp only [jack_playback_callback, if_neg hlt]
      rw [hr.1]
      refine ⟨?_, by omega, by simp⟩
      show rb.data.drop (4 * (F * N)) = rb.data.drop (F * N * 4)
      congr 1
      ring

/-- Claim C5 (code bug): the claim demands a 6-byte header for every
channel count 1..32, and `disk_read` does consume exactly
`FILE_HEADER_LEN = 6` bytes; but for 10 or more channels
`sprintf("JACK%1d", ports)` renders two digits, so `disk_write` emits a
7-byte header (also overflowing its 6-byte `label` buffer).  For
single-digit counts the header is the claimed 6 bytes, written once
before any frame data. -/
theorem C5_header_six_bytes :
    (headerBytes 2).length = FILE_HEADER_LEN
    ∧ headerBytes 2 = [74, 65, 67, 75, 50, 0]
    ∧ (headerBytes 10).length = 7
    ∧ (headerBytes 10).length ≠ FILE_HEADER_LEN
    ∧ disk_write 10 64 (fun l => l) 0 ⟨64, []⟩ initStatus
        = { rb := ⟨64, []⟩, file := headerBytes 10, st := initStatus
            warned := 0 }
    ∧ (headerBytes 32).length ≠ FILE_HEADER_LEN := by
  refine ⟨by decide, by decide, by decide, by decide, by decide, by decide⟩

/-- Claim C6 as amended: on a short write of `w < l` bytes the
`disk_write` loop body reports a warning, but advances the read cursor by
the full requested length `l` — not by the confirmed length `w` — so the
unwritten `l - w` bytes never reach the file. -/
theorem C6_short_write_amended (blocksize : Nat) (wActual : Nat → Nat)
    (s : WriterState) :
    ((disk_write_iter blocksize wActual s).rb.data
        = s.rb.data.drop (min s.rb.data.length blocksize))
    ∧ ((disk_write_iter blocksize wActual s).file
        = s.file ++ (s.rb.data.take (min s.rb.data.length blocksize)).take
            (wActual (min s.rb.data.length blocksize)))
    ∧ (wActual (min s.rb.data.length blocksize)
          ≠ min s.rb.data.length blocksize →
        (disk_write_iter blocksize wActual s).warned = s.warned + 1) := by
  refine ⟨rfl, rfl, fun hne => ?_⟩
  simp only [disk_write_iter]
  rw [if_neg hne]

/-- Witness for C6 amended: two buffered bytes, block size 2, the write
system call reports only 1 byte written; the cursor still advances by 2
and a warning is counted. -/
theorem C6_short_write_amended_witness :
    ((disk_write_iter 2 (fun _ => 1)
        { rb := ⟨4, [5, 6]⟩, file := [], st := initStatus, warned := 0 }).rb.data
      = [5, 6].drop (min 2 2))
    ∧ ((disk_write_iter 2 (fun _ => 1)
        { rb := ⟨4, [5, 6]⟩, file := [], st := initStatus, warned := 0 }).file
      = [] ++ ([5, 6].take (min 2 2)).take 1)
    ∧ (disk_write_iter 2 (fun _ => 1)
        { rb := ⟨4, [5, 6]⟩, file := [], st := initStatus, warned := 0 }).warned
      = 0 + 1 := by
  have h := C6_short_write_amended 2 (fun _ => 1)
    { rb := ⟨4, [5, 6]⟩, file := [], st := initStatus, warned := 0 }
  exact ⟨h.1, h.2.1, h.2.2 (by decide)⟩

/-- Counterexample to claim C6 as stated: with 2 buffered bytes and a
short write of `w = 1 < l = 2`, the read cursor advances by 2 bytes, not
by the confirmed write length 1 (the byte `6` is gone from the buffer yet
never reached the file). -/
theorem C6_short_write_counterexample :
    (disk_write_iter 2 (fun _ => 1)
        { rb := ⟨4, [5, 6]⟩, file := [], st := initStatus, warned := 0 }).rb.data
      = []
    ∧ (disk_write_iter 2 (fun _ => 1)
        { rb := ⟨4, [5, 6]⟩, file := [], st := initStatus, warned := 0 }).file
      = [5]
    ∧ ([] : List Nat) ≠ [6] := by
  refine ⟨rfl, rfl, by decide⟩

/-- Claim C7 as amended: in the `disk_read` loop body, a read returning 0
bytes (end of file) sets the eof flag, breaks the loop and does not
advance the write cursor; a full read of `l` bytes advances the write
cursor by exactly `l`; but a partial read of `0 < r < l` bytes advances
the write cursor by nothing — the `r` bytes read are consumed from the
file and dropped, not committed to the ring buffer. -/
theorem C7_partial_read_amended (blocksize : Nat) (s : ReaderState) :
    ((s.fileRest.take (min (jack_ringbuffer_write_space s.rb) blocksize)).length = 0
        ∧ 0 < min (jack_ringbuffer_write_space s.rb) blocksize →
      (disk_read_iter blocksize s).1.st.eof = 1
      ∧ (disk_read_iter blocksize s).2 = true
      ∧ (disk_read_iter blocksize s).1.rb = s.rb)
    ∧ ((s.fileRest.take (min (jack_ringbuffer_write_space s.rb) blocksize)).length
          = min (jack_ringbuffer_write_space s.rb) blocksize →
      (disk_read_iter blocksize s).1.rb.data
        = s.rb.data ++
          s.fileRest.take (min (jack_ringbuffer_write_space s.rb) blocksize)
      ∧ (disk_read_iter blocksize s).1.st.eof = s.st.eof
      ∧ (disk_read_iter blocksize s).2 = false)
    ∧ (0 < (s.fileRest.take (min (jack_ringbuffer_write_space s.rb) blocksize)).length
        ∧ (s.fileRest.take (min (jack_ringbuffer_write_space s.rb) blocksize)).length
            < min (jack_ringbuffer_write_space s.rb) blocksize →
      (disk_read_iter blocksize s).1.rb = s.rb
      ∧ (disk_read_iter blocksize s).1.fileRest
          = s.fileRest.drop (min (jack_ringbuffer_write_space s.rb) blocksize)
      ∧ (disk_read_iter blocksize s).2 = false) := by
  refine ⟨fun hc => ?_, fun hc => ?_, fun hc => ?_⟩
  · have hne : (s.fileRest.take
        (min (jack_ringbuffer_write_space s.rb) blocksize)).length
        ≠ min (jack_ringbuffer_write_space s.rb) blocksize := by
      omega
    simp only [disk_read_iter]
    rw [if_pos hne, if_pos hc.1]
    exact ⟨rfl, rfl, rfl⟩
  · simp only [disk_read_iter]
    rw [if_neg (by omega : ¬ (s.fileRest.take
        (min (jack_ringbuffer_write_space s.rb) blocksize)).length
        ≠ min (jack_ringbuffer_write_space s.rb) blocksize)]
    exact ⟨rfl, rfl, rfl⟩
  · have hne : (s.fileRest.take
        (min (jack_ringbuffer_write_space s.rb) blocksize)).length
        ≠ min (jack_ringbuffer_write_space s.rb) blocksize := by
      omega
    simp only [disk_read_iter]
    rw [if_pos hne, if_neg (by omega : ¬ (s.fileRest.take
        (min (jack_ringbuffer_write_space s.rb) blocksize)).length = 0)]
    exact ⟨rfl, rfl, rfl⟩

/-- Witness for C7 amended, exercising all three cases: an empty file
sets eof and breaks; a 2-byte file filling a 2-byte request commits both
bytes; a 1-byte file against a 2-byte request commits nothing. -/
theorem C7_partial_read_amended_witness :
    ((disk_read_iter 8 { rb := ⟨2, []⟩, fileRest := [], st := initStatus }).1.st.eof = 1
      ∧ (disk_read_iter 8 { rb := ⟨2, []⟩, fileRest := [], st := initStatus }).2 = true)
    ∧ (disk_read_iter 8
        { rb := ⟨2, []⟩, fileRest := [3, 4], st := initStatus }).1.rb.data
      = [3, 4]
    ∧ (disk_read_iter 8
        { rb := ⟨2, []⟩, fileRest := [3], st := initStatus }).1.rb
      = ⟨2, []⟩ := by
  have h1 := C7_partial_read_amended 8
    { rb := ⟨2, []⟩, fileRest := [], st := initStatus }
  have h2 := C7_partial_read_amended 8
    { rb := ⟨2, []⟩, fileRest := [3, 4], st := initStatus }
  have h3 := C7_partial_read_amended 8
    { rb := ⟨2, []⟩, fileRest := [3], st := initStatus }
  have ha := h1.1 (by constructor <;> decide)
  have hb := h2.2.1 (by decide)
  have hc := h3.2.2 (by constructor <;> decide)
  exact ⟨⟨ha.1, ha.2.1⟩, by rw [hb.1]; decide, hc.1⟩

/-- Counterexample to claim C7 as stated: a partial read of 1 byte
(`0 < r = 1 < l = 2`) advances the write cursor by 0 bytes, not by the 1
byte actually read; the byte is consumed from the file and lost. -/
theorem C7_partial_read_counterexample :
    (disk_read_iter 8
        { rb := ⟨2, []⟩, fileRest := [3], st := initStatus }).1.rb.data = []
    ∧ (disk_read_iter 8
        { rb := ⟨2, []⟩, fileRest := [3], st := initStatus }).1.fileRest = []
    ∧ ([] : List Nat) ≠ [3] := by
  refine ⟨rfl, rfl, by decide⟩

/-! ### Argument-parsing lemmas for C8 -/

lemma applyOpt_core (o : CmdOpt) (c c' : ParseConfig)
    (h1 : c.filename = c'.filename) (h2 : c.io = c'.io)
    (h3 : c.ports = c'.ports) (h4 : c.blocksize = c'.blocksize)
    (h5 : c.rbsize = c'.rbsize) :
    (applyOpt c o).filename = (applyOpt c' o).filename
    ∧ (applyOpt c o).io = (applyOpt c' o).io
    ∧ (applyOpt c o).ports = (applyOpt c' o).ports
    ∧ (applyOpt c o).blocksize = (applyOpt c' o).blocksize
    ∧ (applyOpt c o).rbsize = (applyOpt c' o).rbsize := by
  cases o with
  | optb v suffix =>
    cases suffix with
    | none => exact ⟨h1, h2, h3, rfl, h5⟩
    | some u =>
      by_cases hu : units u = -1 <;>
        simp [applyOpt, hu, h1, h2, h3, h4, h5]
  | optB v suffix =>
    cases suffix with
    | none => exact ⟨h1, h2, h3, h4, rfl⟩
    | some u =>
      by_cases hu : units u = -1 <;>
        simp [applyOpt, hu, h1, h2, h3, h4, h5]
  | optc f => exact ⟨rfl, rfl, h3, h4, h5⟩
  | optp f => exact ⟨rfl, rfl, h3, h4, h5⟩
  | optn v => exact ⟨h1, h2, rfl, h4, h5⟩

lemma foldl_applyOpt_core (opts : List CmdOpt) (c c' : ParseConfig)
    (h1 : c.filename = c'.filename) (h2 : c.io = c'.io)
    (h3 : c.ports = c'.ports) (h4 : c.blocksize = c'.blocksize)
    (h5 : c.rbsize = c'.rbsize) :
    (opts.foldl applyOpt c).filename = (opts.foldl applyOpt c').filename
    ∧ (opts.foldl applyOpt c).io = (opts.foldl applyOpt c').io
    ∧ (opts.foldl applyOpt c).ports = (opts.foldl applyOpt c').ports
    ∧ (opts.foldl applyOpt c).blocksize = (opts.foldl applyOpt c').blocksize
    ∧ (opts.foldl applyOpt c).rbsize = (opts.foldl applyOpt c').rbsize := by
  induction opts generalizing c c' with
  | nil => exact ⟨h1, h2, h3, h4, h5⟩
  | cons o rest ih =>
    have h := applyOpt_core o c c' h1 h2 h3 h4 h5
    exact ih (applyOpt c o) (applyOpt c' o) h.1 h.2.1 h.2.2.1 h.2.2.2.1 h.2.2.2.2

lemma parse_args_ret_congr (opts opts' : List CmdOpt) (npos : Nat)
    (h1 : (opts.foldl applyOpt initConfig).filename
        = (opts'.foldl applyOpt initConfig).filename)
    (h2 : (opts.foldl applyOpt initConfig).io
        = (opts'.foldl applyOpt initConfig).io)
    (h3 : (opts.foldl applyOpt initConfig).ports
        = (opts'.foldl applyOpt initConfig).ports) :
    (parse_args opts npos).2 = (parse_args opts' npos).2 := by
  rw [parse_args, parse_args]
  split_ifs <;> first | rfl | (exfalso; simp_all)

/-- Claim C8 as amended: an invalid unit suffix on `-b` or `-B` is
reported to the operator (the warning counter increments) but is not
fatal: the scanned value is kept without any multiplier, option processing
continues, and `parse_args` returns exactly the status it would return had
the suffix been absent — in particular an otherwise-valid command line
still starts the process. -/
theorem C8_invalid_suffix_amended (v : Int) (u : Char) (c : ParseConfig)
    (pre post : List CmdOpt) (npos : Nat) (hu : units u = -1) :
    (applyOpt c (CmdOpt.optb v (some u))
        = { c with blocksize := v, warnings := c.warnings + 1 })
    ∧ (applyOpt c (CmdOpt.optB v (some u))
        = { c with rbsize := v, warnings := c.warnings + 1 })
    ∧ ((parse_args (pre ++ CmdOpt.optb v (some u) :: post) npos).2
        = (parse_args (pre ++ CmdOpt.optb v none :: post) npos).2)
    ∧ ((parse_args (pre ++ CmdOpt.optB v (some u) :: post) npos).2
        = (parse_args (pre ++ CmdOpt.optB v none :: post) npos).2) := by
  refine ⟨by simp [applyOpt, hu], by simp [applyOpt, hu], ?_, ?_⟩
  · have hb : ∀ cc : ParseConfig,
        (applyOpt cc (CmdOpt.optb v (some u))).filename
            = (applyOpt cc (CmdOpt.optb v none)).filename
        ∧ (applyOpt cc (CmdOpt.optb v (some u))).io
            = (applyOpt cc (CmdOpt.optb v none)).io
        ∧ (applyOpt cc (CmdOpt.optb v (some u))).ports
            = (applyOpt cc (CmdOpt.optb v none)).ports
        ∧ (applyOpt cc (CmdOpt.optb v (some u))).blocksize
            = (applyOpt cc (CmdOpt.optb v none)).blocksize
        ∧ (applyOpt cc (CmdOpt.optb v (some u))).rbsize
            = (applyOpt cc (CmdOpt.optb v none)).rbsize := by
      intro cc
      simp [applyOpt, hu]
    have hfold := fun (cc : ParseConfig) => foldl_applyOpt_core post
      (applyOpt cc (CmdOpt.optb v (some u))) (applyOpt cc (CmdOpt.optb v none))
      (hb cc).1 (hb cc).2.1 (hb cc).2.2.1 (hb cc).2.2.2.1 (hb cc).2.2.2.2
    have hc := hfold (pre.foldl applyOpt initConfig)
    exact parse_args_ret_congr _ _ npos
      (by rw [List.foldl_append, List.foldl_cons,
              List.foldl_append, List.foldl_cons]; exact hc.1)
      (by rw [List.foldl_append, List.foldl_cons,
              List.foldl_append, List.foldl_cons]; exact hc.2.1)
      (by rw [List.foldl_append, List.foldl_cons,
              List.foldl_append, List.foldl_cons]; exact hc.2.2.1)
  · have hb : ∀ cc : ParseConfig,
        (applyOpt cc (CmdOpt.optB v (some u))).filename
            = (applyOpt cc (CmdOpt.optB v none)).filename
        ∧ (applyOpt cc (CmdOpt.optB v (some u))).io
            = (applyOpt cc (CmdOpt.optB v none)).io
        ∧ (applyOpt cc (CmdOpt.optB v (some u))).ports
            = (applyOpt cc (CmdOpt.optB v none)).ports
        ∧ (applyOpt cc (CmdOpt.optB v (some u))).blocksize
            = (applyOpt cc (CmdOpt.optB v none)).blocksize
        ∧ (applyOpt cc (CmdOpt.optB v (some u))).rbsize
            = (applyOpt cc (CmdOpt.optB v none)).rbsize := by
      intro cc
      simp [applyOpt, hu]
    have hfold := fun (cc : ParseConfig) => foldl_applyOpt_core post
      (applyOpt cc (CmdOpt.optB v (some u))) (applyOpt cc (CmdOpt.optB v none))
      (hb cc).1 (hb cc).2.1 (hb cc).2.2.1 (hb cc).2.2.2.1 (hb cc).2.2.2.2
    have hc := hfold (pre.foldl applyOpt initConfig)
    exact parse_args_ret_congr _ _ npos
      (by rw [List.foldl_append, List.foldl_cons,
              List.foldl_append, List.foldl_cons]; exact hc.1)
      (by rw [List.foldl_append, List.foldl_cons,
              List.foldl_append, List.foldl_cons]; exact hc.2.1)
      (by rw [List.foldl_append, List.foldl_cons,
              List.foldl_append, List.foldl_cons]; exact hc.2.2.1)

/-- Witness for C8 amended at the command line
`jack_cat -c f -n 2 -b 100x`: the suffix `x` is invalid, one warning is
counted, block size stays 100, and parsing succeeds either way. -/
theorem C8_invalid_suffix_amended_witness :
    (applyOpt initConfig (CmdOpt.optb 100 (some 'x'))
        = { initConfig with blocksize := 100, warnings := 1 })
    ∧ ((parse_args ([CmdOpt.optc "f", CmdOpt.optn 2]
            ++ CmdOpt.optb 100 (some 'x') :: []) 0).2
        = (parse_args ([CmdOpt.optc "f", CmdOpt.optn 2]
            ++ CmdOpt.optb 100 none :: []) 0).2) := by
  have h := C8_invalid_suffix_amended 100 'x' initConfig
    [CmdOpt.optc "f", CmdOpt.optn 2] [] 0 (by decide)
  exact ⟨h.1, h.2.2.1⟩

/-- Counterexample to claim C8 as stated: the command line
`jack_cat -c f -n 2 -b 100x` has an invalid `-b` unit suffix, yet
`parse_args` returns 0 (success), the process does not exit before
starting its threads, and the block size silently stays at the raw
value 100 with one warning printed. -/
theorem C8_invalid_suffix_counterexample :
    (parse_args [CmdOpt.optc "f", CmdOpt.optn 2,
        CmdOpt.optb 100 (some 'x')] 0).2 = 0
    ∧ main_exits_before_threads
        [CmdOpt.optc "f", CmdOpt.optn 2, CmdOpt.optb 100 (some 'x')] 0 = false
    ∧ (parse_args [CmdOpt.optc "f", CmdOpt.optn 2,
        CmdOpt.optb 100 (some 'x')] 0).1.blocksize = 100
    ∧ (parse_args [CmdOpt.optc "f", CmdOpt.optn 2,
        CmdOpt.optb 100 (some 'x')] 0).1.warnings = 1 := by
  refine ⟨by decide, by decide, by decide, by decide⟩

/-! ### The capture/replay round trip (C1) -/

/-- Ten channels of one frame each (samples 1..10): a concrete input at a
two-digit channel count. -/
def bufs10 : List (List Nat) :=
  [[1], [2], [3], [4], [5], [6], [7], [8], [9], [10]]

/-- Capture run of `bufs10`: one callback into an exactly-sized (40-byte)
ring buffer, then the disk writer drains it to a file. -/
def captureRun10 : WriterState :=
  disk_write 10 64 (fun l => l) 2
    (jack_capture_callback 1 10 bufs10 initStatus ⟨40, []⟩).rb
    (jack_capture_callback 1 10 bufs10 initStatus ⟨40, []⟩).st

/-- Playback run over the file produced by `captureRun10`: the disk
reader fills a 41-byte ring buffer, then one playback callback of one
frame over ten ports. -/
def playbackRun10 : PlaybackResult :=
  jack_playback_callback 1 10
    (disk_read 64 2 captureRun10.file ⟨41, []⟩ initStatus).st
    (disk_read 64 2 captureRun10.file ⟨41, []⟩ initStatus).rb

/-- Counterexample to claim C1 as stated for channel counts above 9: at
`N = 10`, `K = 1`, the capture run overflows never and the playback run
underruns never, yet the replayed output is not the original sequence —
the writer emits a 7-byte header while the reader strips 6 bytes, so
every replayed sample is shifted by one byte (samples 1..10 come back as
256..2560). -/
theorem C1_roundtrip_counterexample :
    (jack_capture_callback 1 10 bufs10 initStatus ⟨40, []⟩).st.overflows = 0
    ∧ playbackRun10.st.underruns = 0
    ∧ playbackRun10.outs
        = [[256], [512], [768], [1024], [1280], [1536], [1792], [2048],
           [2304], [2560]]
    ∧ playbackRun10.outs ≠ bufs10 := by
  refine ⟨by decide, by decide, by decide, by decide⟩

/-- Claim C1 as amended: for every channel count `N` in 1..9 (one decimal
digit) and frame count `K ≥ 1`, capturing a synthetic `N`-channel signal
of `K` frames to a file and replaying that file reproduces the original
per-port sample sequences exactly, bit-exact, and the run has no overflow
and no underrun.  The scenario: the capture ring buffer and both disk
block sizes hold one period, the playback ring buffer is exactly the body
size, and the disk system calls transfer fully. -/
theorem C1_roundtrip_amended (N K bsW bsR capW : Nat) (bufs : List (List Nat))
    (hN1 : 1 ≤ N) (hN9 : N ≤ 9) (hK1 : 1 ≤ K)
    (hlen : bufs.length = N)
    (hKlen : ∀ ch ∈ bufs, ch.length = K)
    (hs : ∀ ch ∈ bufs, ∀ s ∈ ch, s < 4294967296)
    (hcapW : K * sampleSize * N ≤ capW)
    (hbsW : K * sampleSize * N ≤ bsW)
    (hbsR : K * sampleSize * N ≤ bsR) :
    (disk_write N bsW (fun l => l) 2
        (jack_capture_callback K N bufs initStatus ⟨capW, []⟩).rb
        (jack_capture_callback K N bufs initStatus ⟨capW, []⟩).st).file
      = headerBytes N ++ samplesBytes (interleavedSamples K N bufs)
    ∧ (jack_playback_callback K N
        (disk_read bsR 2
          (disk_write N bsW (fun l => l) 2
            (jack_capture_callback K N bufs initStatus ⟨capW, []⟩).rb
            (jack_capture_callback K N bufs initStatus ⟨capW, []⟩).st).file
          ⟨K * sampleSize * N, []⟩ initStatus).st
        (disk_read bsR 2
          (disk_write N bsW (fun l => l) 2
            (jack_capture_callback K N bufs initStatus ⟨capW, []⟩).rb
            (jack_capture_callback K N bufs initStatus ⟨capW, []⟩).st).file
          ⟨K * sampleSize * N, []⟩ initStatus).rb).outs = bufs
    ∧ (jack_capture_callback K N bufs initStatus ⟨capW, []⟩).st.overflows = 0
    ∧ (jack_playback_callback K N
        (disk_read bsR 2
          (disk_write N bsW (fun l => l) 2
            (jack_capture_callback K N bufs initStatus ⟨capW, []⟩).rb
            (jack_capture_callback K N bufs initStatus ⟨capW, []⟩).st).file
          ⟨K * sampleSize * N, []⟩ initStatus).st
        (disk_read bsR 2
          (disk_write N bsW (fun l => l) 2
            (jack_capture_callback K N bufs initStatus ⟨capW, []⟩).rb
            (jack_capture_callback K N bufs initStatus ⟨capW, []⟩).st).file
          ⟨K * sampleSize * N, []⟩ initStatus).rb).st.underruns = 0 := by
  have hspace0 : jack_ringbuffer_write_space ⟨capW, []⟩ = capW := by
    simp [jack_ringbuffer_write_space]
  have hnotov : ¬ jack_ringbuffer_write_space ⟨capW, []⟩
      < K * sampleSize * N := by
    rw [hspace0]; omega
  have h4eq : K * sampleSize * N = 4 * (K * N) := by rw [sampleSize]; ring
  have hfit : 4 * (interleavedSamples K N bufs).length
      ≤ jack_ringbuffer_write_space ⟨capW, []⟩ := by
    rw [interleavedSamples_length, hspace0]
    omega
  have hcap : jack_capture_callback K N bufs initStatus ⟨capW, []⟩
      = { ret := 0, st := ⟨1, 0, 0, 0, 0, 0, 0⟩
          rb := ⟨capW, samplesBytes (interleavedSamples K N bufs)⟩ } := by
    simp only [jack_capture_callback, if_neg hnotov]
    rw [writeInterleaved_append _ _ hfit]
    simp [initStatus]
  have hBlen : (samplesBytes (interleavedSamples K N bufs)).length
      = K * sampleSize * N := by
    rw [samplesBytes_length, interleavedSamples_length, sampleSize]; ring
  have hKNpos : 0 < K * sampleSize * N :=
    Nat.mul_pos (Nat.mul_pos hK1 (by decide)) hN1
  have hBpos : 0 < (samplesBytes (interleavedSamples K N bufs)).length := by
    rw [hBlen]; exact hKNpos
  have hwr : disk_write N bsW (fun l => l) 2
      (jack_capture_callback K N bufs initStatus ⟨capW, []⟩).rb
      (jack_capture_callback K N bufs initStatus ⟨capW, []⟩).st
      = { rb := ⟨capW, []⟩
          file := headerBytes N ++ samplesBytes (interleavedSamples K N bufs)
          st := ⟨1, 1, (samplesBytes (interleavedSamples K N bufs)).length,
                 0, 0, 0, 0⟩
          warned := 0 } := by
    rw [hcap, disk_write]
    rw [disk_write_run_drain bsW _ rfl
      (by show (samplesBytes (interleavedSamples K N bufs)).length ≤ bsW
          omega)]
    rw [if_pos (by exact hBpos)]
    simp
  have hhl : (headerBytes N).length = 6 :=
    headerBytes_length_single N (by omega)
  have hdrop : (headerBytes N
      ++ samplesBytes (interleavedSamples K N bufs)).drop FILE_HEADER_LEN
      = samplesBytes (interleavedSamples K N bufs) := by
    rw [FILE_HEADER_LEN, ← hhl, List.drop_left]
  have htake6 : ¬ ((headerBytes N
      ++ samplesBytes (interleavedSamples K N bufs)).take
        FILE_HEADER_LEN).length < FILE_HEADER_LEN := by
    rw [List.length_take, FILE_HEADER_LEN, List.length_append, hhl]
    omega
  have hrd : disk_read bsR 2
      (headerBytes N ++ samplesBytes (interleavedSamples K N bufs))
      ⟨K * sampleSize * N, []⟩ initStatus
      = { rb := ⟨K * sampleSize * N,
                 samplesBytes (interleavedSamples K N bufs)⟩
          fileRest := []
          st := ⟨0, 1, (samplesBytes (interleavedSamples K N bufs)).length,
                 0, 0, 0, 0⟩ } := by
    rw [disk_read, if_neg htake6, hdrop, ← hBlen]
    rw [disk_read_run_fill bsR _ initStatus rfl (by rw [hBlen]; exact hbsR)]
    rw [if_pos hBpos]
    simp [initStatus]
  have hnotun : ¬ jack_ringbuffer_read_space
      ⟨K * sampleSize * N, samplesBytes (interleavedSamples K N bufs)⟩
      < K * sampleSize * N := by
    rw [jack_ringbuffer_read_space]
    show ¬ (samplesBytes (interleavedSamples K N bufs)).length
      < K * sampleSize * N
    rw [hBlen]
    exact Nat.lt_irrefl _
  have hread : readInterleaved
      ⟨K * sampleSize * N, samplesBytes (interleavedSamples K N bufs)⟩
      (K * N)
      = (⟨K * sampleSize * N, []⟩, interleavedSamples K N bufs) := by
    have h1 := readInterleaved_exact (interleavedSamples K N bufs) []
      (K * sampleSize * N)
      (interleavedSamples_lt K N bufs 4294967296 (by norm_num) hs)
    rw [List.append_nil, interleavedSamples_length] at h1
    exact h1
  have hpb : jack_playback_callback K N
      ⟨0, 1, (samplesBytes (interleavedSamples K N bufs)).length, 0, 0, 0, 0⟩
      ⟨K * sampleSize * N, samplesBytes (interleavedSamples K N bufs)⟩
      = { ret := 0
          st := ⟨1, 1, (samplesBytes (interleavedSamples K N bufs)).length,
                 0, 0, 0, 0⟩
          rb := ⟨K * sampleSize * N, []⟩
          outs := bufs, deact := false } := by
    simp only [jack_playback_callback, if_neg hnotun]
    rw [hread]
    rw [deinterleave_interleave K N bufs hlen hKlen]
  refine ⟨?_, ?_, ?_, ?_⟩
  · simp only [hwr]
  · simp only [hwr, hrd, hpb]
  · simp only [hcap]
  · simp only [hwr, hrd, hpb]

/-- Witness for C1 amended at `N = 2`, `K = 1`, samples `[[1], [2]]`,
8-byte buffers and block sizes. -/
theorem C1_roundtrip_amended_witness :
    (disk_write 2 8 (fun l => l) 2
        (jack_capture_callback 1 2 [[1], [2]] initStatus ⟨8, []⟩).rb
        (jack_capture_callback 1 2 [[1], [2]] initStatus ⟨8, []⟩).st).file
      = headerBytes 2 ++ samplesBytes (interleavedSamples 1 2 [[1], [2]])
    ∧ (jack_playback_callback 1 2
        (disk_read 8 2
          (disk_write 2 8 (fun l => l) 2
            (jack_capture_callback 1 2 [[1], [2]] initStatus ⟨8, []⟩).rb
            (jack_capture_callback 1 2 [[1], [2]] initStatus ⟨8, []⟩).st).file
          ⟨1 * sampleSize * 2, []⟩ initStatus).st
        (disk_read 8 2
          (disk_write 2 8 (fun l => l) 2
            (jack_capture_callback 1 2 [[1], [2]] initStatus ⟨8, []⟩).rb
            (jack_capture_callback 1 2 [[1], [2]] initStatus ⟨8, []⟩).st).file
          ⟨1 * sampleSize * 2, []⟩ initStatus).rb).outs = [[1], [2]]
    ∧ (jack_capture_callback 1 2 [[1], [2]] initStatus ⟨8, []⟩).st.overflows
        = 0
    ∧ (jack_playback_callback 1 2
        (disk_read 8 2
          (disk_write 2 8 (fun l => l) 2
            (jack_capture_callback 1 2 [[1], [2]] initStatus ⟨8, []⟩).rb
            (jack_capture_callback 1 2 [[1], [2]] initStatus ⟨8, []⟩).st).file
          ⟨1 * sampleSize * 2, []⟩ initStatus).st
        (disk_read 8 2
          (disk_write 2 8 (fun l => l) 2
            (jack_capture_callback 1 2 [[1], [2]] initStatus ⟨8, []⟩).rb
            (jack_capture_callback 1 2 [[1], [2]] initStatus ⟨8, []⟩).st).file
          ⟨1 * sampleSize * 2, []⟩ initStatus).rb).st.underruns = 0 :=
  C1_roundtrip_amended 2 1 8 8 8 [[1], [2]]
    (by decide) (by decide) (by decide) (by decide)
    (by decide) (by decide) (by decide) (by decide) (by decide)

end JackCat
